import Mathlib

/-!
Verification of the GoSNare conversion core (RATTA_RLE decoder, palette,
tone-layer sorting, metadata-block parser, fill sinks, PDF writer) against
its natural-language specification.  Each Go function under scrutiny is
shallowly embedded as an executable Lean definition; bytes are modelled as
natural numbers (the code never overflows a byte where it matters, and the
bit operations used — `&&& 0x7f`, `&&& 0x80`, `<<< 7` — are taken verbatim).
Stateful loops become structural recursion, the `emit` callback of the RLE
decoder becomes the returned list of emitted runs, and Go run-time panics
(index or slice out of range) are modelled by `Option` with `none` as the
panic outcome.
-/

namespace GoSNare

/-! ## RLE codec (`rle.go`, `decodeRLE`)

The Go decoder walks `(colorCode, lengthCode)` byte pairs keeping at most one
held pair whose run length is ambiguous.  `decodeRLEAux` consumes exactly one
pair per step, so the loop is structural recursion on the byte list; the
callback `emit(pos, length, colorCode)` is modelled by returning the list of
emitted `(pos, length, colorCode)` triples in emission order. -/

/-- Clamp of a run length to the remaining expected pixels, mirroring
`if pos+length > expected { length = expected - pos }`. -/
def clampRun (expected pos len : Nat) : Nat :=
  if expected < pos + len then expected - pos else len

/-- One emission guarded by the transparent sentinel, mirroring
`if colorCode != 0x62 { emit(pos, length, colorCode) }`. -/
def emitRun (c pos len : Nat) : List (Nat × Nat × Nat) :=
  if c = 0x62 then [] else [(pos, len, c)]

/-- End-of-input flush of a pending held pair, mirroring the final
`if hasHolder && pos < expected { ... }` block of `decodeRLE`. -/
def flushTail (expected pos : Nat) : Option (Nat × Nat) → List (Nat × Nat × Nat)
  | none => []
  | some (hc, hl) =>
    if pos < expected then
      if 0 < min (((hl &&& 0x7f) + 1) <<< 7) (expected - pos) ∧ hc ≠ 0x62 then
        [(pos, min (((hl &&& 0x7f) + 1) <<< 7) (expected - pos), hc)]
      else []
    else []

/-- The `decodeRLE` loop of `rle.go`.  State: current position and the
optional held `(color, lengthCode)` pair.  Each loop iteration reads one
byte pair; the loop stops when fewer than two bytes remain or the raster
is full, after which a pending hold is flushed (only if the raster is not
yet full). -/
def decodeRLEAux : List Nat → Nat → Nat → Option (Nat × Nat) → List (Nat × Nat × Nat)
  | [], expected, pos, holder => flushTail expected pos holder
  | [_], expected, pos, holder => flushTail expected pos holder
  | c :: l :: rest, expected, pos, holder =>
    if expected ≤ pos then [] else
    match holder with
    | some (pc, pl) =>
      if c = pc then
        emitRun c pos (clampRun expected pos (1 + l + ((pl &&& 0x7f) + 1) <<< 7)) ++
          decodeRLEAux rest expected
            (pos + clampRun expected pos (1 + l + ((pl &&& 0x7f) + 1) <<< 7)) none
      else
        emitRun pc pos (clampRun expected pos (((pl &&& 0x7f) + 1) <<< 7)) ++
          emitRun c (pos + clampRun expected pos (((pl &&& 0x7f) + 1) <<< 7))
            (clampRun expected (pos + clampRun expected pos (((pl &&& 0x7f) + 1) <<< 7)) (l + 1)) ++
          decodeRLEAux rest expected
            (pos + clampRun expected pos (((pl &&& 0x7f) + 1) <<< 7) +
              clampRun expected (pos + clampRun expected pos (((pl &&& 0x7f) + 1) <<< 7)) (l + 1)) none
    | none =>
      if l = 0xff then
        emitRun c pos (clampRun expected pos 0x4000) ++
          decodeRLEAux rest expected (pos + clampRun expected pos 0x4000) none
      else if l &&& 0x80 ≠ 0 then
        decodeRLEAux rest expected pos (some (c, l))
      else
        emitRun c pos (clampRun expected pos (l + 1)) ++
          decodeRLEAux rest expected (pos + clampRun expected pos (l + 1)) none

/-- `decodeRLE(data, width, height, emit)`: run the state machine over a
`width*height` raster starting idle at position 0. -/
def decodeRLE (data : List Nat) (width height : Nat) : List (Nat × Nat × Nat) :=
  decodeRLEAux data (width * height) 0 none

example : decodeRLE [0x00, 0x05] 10 1 = [(0, 6, 0)] := by decide

example : decodeRLE [0x01, 0x83, 0x01, 0x02] 1000 1 = [(0, 1 + 2 + 4 * 128, 1)] := by decide

theorem emitRun_mem (c p len : Nat) (r : Nat × Nat × Nat) (hr : r ∈ emitRun c p len) :
    r.2.2 ≠ 0x62 := by
  unfold emitRun at hr
  split_ifs at hr with h
  · simp at hr
  · rw [List.mem_singleton] at hr
    subst hr
    exact h

theorem flushTail_mem (e p : Nat) (holder : Option (Nat × Nat)) (r : Nat × Nat × Nat)
    (hr : r ∈ flushTail e p holder) : r.2.2 ≠ 0x62 := by
  cases holder with
  | none => simp [flushTail] at hr
  | some pr =>
    obtain ⟨hc, hl⟩ := pr
    simp only [flushTail] at hr
    split_ifs at hr with h1 h2
    · rw [List.mem_singleton] at hr
      subst hr
      exact h2.2
    · simp at hr
    · simp at hr

theorem decodeRLEAux_mem : ∀ (data : List Nat) (expected pos : Nat)
    (holder : Option (Nat × Nat)) (r : Nat × Nat × Nat),
    r ∈ decodeRLEAux data expected pos holder → r.2.2 ≠ 0x62
  | [], e, p, holder, r, hr => flushTail_mem e p holder r hr
  | [_], e, p, holder, r, hr => flushTail_mem e p holder r hr
  | c :: l :: rest, e, p, holder, r, hr => by
    rw [decodeRLEAux.eq_def] at hr
    simp only at hr
    split at hr
    · exact absurd hr (List.not_mem_nil r)
    · split at hr
      · split at hr
        · rcases List.mem_append.mp hr with h | h
          · exact emitRun_mem _ _ _ _ h
          · exact decodeRLEAux_mem rest _ _ _ r h
        · rcases List.mem_append.mp hr with h | h
          · rcases List.mem_append.mp h with h2 | h2
            · exact emitRun_mem _ _ _ _ h2
            · exact emitRun_mem _ _ _ _ h2
          · exact decodeRLEAux_mem rest _ _ _ r h
      · split at hr
        · rcases List.mem_append.mp hr with h | h
          · exact emitRun_mem _ _ _ _ h
          · exact decodeRLEAux_mem rest _ _ _ r h
        · split at hr
          · exact decodeRLEAux_mem rest _ _ _ r hr
          · rcases List.mem_append.mp hr with h | h
            · exact emitRun_mem _ _ _ _ h
            · exact decodeRLEAux_mem rest _ _ _ r h

/-- C7: for every input byte stream and raster size, `decodeRLE` never emits a
run carrying the transparent sentinel color code `0x62` — not for a normal run,
not when flushing a held run on a color change, and not in the end-of-input
tail flush — so transparent-coded pixels keep the sink buffer's pre-initialized
value. -/
theorem claim_C7_no_transparent_emit (data : List Nat) (width height : Nat)
    (r : Nat × Nat × Nat) (hr : r ∈ decodeRLE data width height) : r.2.2 ≠ 0x62 :=
  decodeRLEAux_mem data (width * height) 0 none r hr

theorem claim_C7_witness :
    ((0, 6, 0) : Nat × Nat × Nat) ∈ decodeRLE [0x00, 0x05] 10 1 ∧
    ((0, 6, 0) : Nat × Nat × Nat).2.2 ≠ 0x62 :=
  ⟨by decide, claim_C7_no_transparent_emit [0x00, 0x05] 10 1 (0, 6, 0) (by decide)⟩

/-- C2 (amended): when the decoder holds a pair `(c, L1)` and the next pair is
`(c, L2)` with the same color, and `c` is not the transparent sentinel `0x62`,
exactly one run is emitted, at the current position, with length
`1 + L2 + ((L1 &&& 0x7F) + 1) <<< 7` clamped to the remaining pixel count, and
decoding continues with no held pair. -/
theorem claim_C2_merge_run (rest : List Nat) (expected pos c L1 L2 : Nat)
    (hpos : pos < expected) (hc : c ≠ 0x62) :
    decodeRLEAux (c :: L2 :: rest) expected pos (some (c, L1)) =
      (pos, min (1 + L2 + ((L1 &&& 0x7f) + 1) <<< 7) (expected - pos), c) ::
        decodeRLEAux rest expected
          (pos + min (1 + L2 + ((L1 &&& 0x7f) + 1) <<< 7) (expected - pos)) none := by
  have hcl : clampRun expected pos (1 + L2 + ((L1 &&& 0x7f) + 1) <<< 7)
      = min (1 + L2 + ((L1 &&& 0x7f) + 1) <<< 7) (expected - pos) := by
    unfold clampRun
    split <;> omega
  rw [decodeRLEAux.eq_def]
  simp only
  rw [if_neg (Nat.not_le.mpr hpos)]
  simp [emitRun, hc, hcl]

theorem claim_C2_witness :
    decodeRLEAux [0, 1] 10 0 (some (0, 0x80)) = [(0, 10, 0)] := by
  have h := claim_C2_merge_run [] 10 0 0 0x80 1 (by decide) (by decide)
  simpa [decodeRLEAux, flushTail] using h

/-- C2, the claim as frozen, is false at the transparent sentinel: a held pair
`(0x62, 0x80)` followed by the same-color pair `(0x62, 0x00)` emits no run at
all (the merged length only advances the position), not exactly one run. -/
theorem claim_C2_counterexample :
    decodeRLEAux [0x62, 0x00] 10 0 (some (0x62, 0x80)) = [] ∧
    decodeRLE [0x62, 0x80, 0x62, 0x00] 10 1 = [] := by decide

/-- C3 (amended): if input ends while a pair `(c, L)` is held with the raster
not yet full and `c` is not the transparent sentinel `0x62`, the decoder
flushes one final run for `c` of length `((L &&& 0x7F) + 1) <<< 7` clamped to
the remaining pixel count; in particular a stream that is exactly one held pair
flushes a tail run of that length clamped to the raster size. -/
theorem claim_C3_tail_flush :
    (∀ (tail : List Nat) (expected pos c L : Nat),
      tail.length ≤ 1 → pos < expected → c ≠ 0x62 →
      decodeRLEAux tail expected pos (some (c, L)) =
        [(pos, min (((L &&& 0x7f) + 1) <<< 7) (expected - pos), c)]) ∧
    (∀ (c L w h : Nat), L &&& 0x80 ≠ 0 → L ≠ 0xff → 0 < w * h → c ≠ 0x62 →
      decodeRLE [c, L] w h = [(0, min (((L &&& 0x7f) + 1) <<< 7) (w * h), c)]) := by
  have flush : ∀ (expected pos c L : Nat), pos < expected → c ≠ 0x62 →
      flushTail expected pos (some (c, L)) =
        [(pos, min (((L &&& 0x7f) + 1) <<< 7) (expected - pos), c)] := by
    intro expected pos c L hpos hc
    have hp : 0 < min (((L &&& 0x7f) + 1) <<< 7) (expected - pos) := by
      rw [Nat.lt_min]
      constructor
      · rw [Nat.shiftLeft_eq]
        positivity
      · omega
    simp [flushTail, hpos, hp, hc]
  constructor
  · intro tail expected pos c L hlen hpos hc
    match tail with
    | [] => exact flush expected pos c L hpos hc
    | [b] => exact flush expected pos c L hpos hc
    | _ :: _ :: _ => simp at hlen
  · intro c L w h hbit hff hwh hc
    unfold decodeRLE
    rw [decodeRLEAux.eq_def]
    simp only
    rw [if_neg (by omega : ¬ w * h ≤ 0)]
    simp only [hff, if_false, hbit, ne_eq, not_false_iff, if_true]
    rw [show decodeRLEAux [] (w * h) 0 (some (c, L)) = flushTail (w * h) 0 (some (c, L)) from rfl]
    rw [flush (w * h) 0 c L hwh hc]
    simp

theorem claim_C3_witness :
    decodeRLEAux [] 10 0 (some (0, 0x80)) = [(0, 10, 0)] ∧
    decodeRLE [0, 0x81] 4 2 = [(0, 8, 0)] := by
  constructor
  · have h := claim_C3_tail_flush.1 [] 10 0 0 0x80 (by decide) (by decide) (by decide)
    simpa using h
  · have h := claim_C3_tail_flush.2 0 0x81 4 2 (by decide) (by decide) (by decide) (by decide)
    simpa using h

/-- C3, the claim as frozen, is false at the transparent sentinel: a stream
consisting of one held pair with color `0x62` flushes nothing. -/
theorem claim_C3_counterexample : decodeRLE [0x62, 0x80] 10 1 = [] := by decide

/-! ## Palette (`rle.go`, `BuildPalette`)

`BuildPalette` interpolates between four anchor colors with `float64`
arithmetic and converts each channel back with Go's truncating `byte(...)`
conversion.  The arithmetic is modelled over `ℚ`; at every point the claims
touch (the anchor codes, where the interpolation fraction is exactly `0` or
`1`, and the marker-opacity products `0.2*255` and `0.38*255`) the `float64`
computation is exact or rounds to the same integer part, so the rational model
agrees byte-for-byte with the Go code there.  Anchor colors are taken as
already-parsed `(r, g, b)` byte triples (`parseHexColor` output). -/

/-- Go's `byte(x)` conversion of a nonnegative float: truncate the fraction
(for nonnegative values this is the floor) and keep the low byte. -/
def goByte (q : ℚ) : Nat := (⌊q⌋).toNat % 256

/-- One channel of the interpolation loop body:
`byte(float64(start.c) + f*float64(int(end.c)-int(start.c)))` with
`f = float64(j-start.pos)/float64(dist)`. -/
def interpChan (s e js dist j : Nat) : Nat :=
  goByte ((s : ℚ) + (((j : ℚ) - (js : ℚ)) / (dist : ℚ)) * ((e : ℚ) - (s : ℚ)))

/-- All three channels of the interpolation loop body. -/
def interpColor (s e : Nat × Nat × Nat) (js dist j : Nat) : Nat × Nat × Nat :=
  (interpChan s.1 e.1 js dist j, interpChan s.2.1 e.2.1 js dist j,
    interpChan s.2.2 e.2.2 js dist j)

/-- Final contents of `p.Colors[j]` after the three interpolation loops.  The
loops write the shared endpoints `157` and `201` twice (segment `i` at `f = 1`,
then segment `i+1` at `f = 0`); the later write wins, so the closed form uses
the right-hand segment at each shared endpoint. -/
def basePaletteColor (b dg lg w : Nat × Nat × Nat) (j : Nat) : Nat × Nat × Nat :=
  if j < 157 then interpColor b dg 0 157 j
  else if j < 201 then interpColor dg lg 157 44 j
  else interpColor lg w 201 54 j

/-- Final contents of `p.Colors[j]` after the specialized pen, marker and
compatibility overwrites (`0x61`, `0x63`–`0x68`, `0x9d`, `0x9e`, `0xc9`,
`0xca`); note `0x9d = 157` and `0xc9 = 201` are self-assignments. -/
def paletteColor (b dg lg w : Nat × Nat × Nat) (j : Nat) : Nat × Nat × Nat :=
  if j = 0x61 ∨ j = 0x66 then basePaletteColor b dg lg w 0
  else if j = 0x63 ∨ j = 0x67 ∨ j = 0x9d ∨ j = 0x9e then basePaletteColor b dg lg w 157
  else if j = 0x64 ∨ j = 0x68 ∨ j = 0xc9 ∨ j = 0xca then basePaletteColor b dg lg w 201
  else if j = 0x65 then basePaletteColor b dg lg w 255
  else basePaletteColor b dg lg w j

/-- Final contents of `p.Alphas[j]`: the marker codes get
`byte(markerOpacity*255)` (with `0x26` substituted when that byte is zero),
every other code is fully opaque. -/
def paletteAlpha (markerOpacity : ℚ) (j : Nat) : Nat :=
  if j = 0x66 ∨ j = 0x67 ∨ j = 0x68 then
    if goByte (markerOpacity * 255) = 0 then 0x26 else goByte (markerOpacity * 255)
  else 0xFF

/-- The four user-configurable anchor colors of a `ColorConfig`, as parsed
`(r, g, b)` byte triples. -/
structure ColorConfig where
  black : Nat × Nat × Nat
  darkGray : Nat × Nat × Nat
  lightGray : Nat × Nat × Nat
  white : Nat × Nat × Nat

/-- The configuration fields the conversion entry points read: note colors,
mark colors, and `cfg.Mark.MarkerOpacity`. -/
structure Config where
  note : ColorConfig
  mark : ColorConfig
  markMarkerOpacity : ℚ

/-- A built palette: 256-entry color table plus alpha table (modelled as
functions on the code byte). -/
structure Palette where
  colors : Nat → Nat × Nat × Nat
  alphas : Nat → Nat

/-- `BuildPalette(cfg, markerOpacity)`. -/
def buildPalette (c : ColorConfig) (markerOpacity : ℚ) : Palette :=
  { colors := paletteColor c.black c.darkGray c.lightGray c.white
    alphas := paletteAlpha markerOpacity }

/-- The palette built by `ConvertNoteToPDFVector`:
`BuildPalette(cfg.Note.ColorConfig, 0.2)` — the marker opacity is the literal
`0.2`, not the configured value. -/
def noteConvertPalette (cfg : Config) : Palette := buildPalette cfg.note (0.2 : ℚ)

/-- The palette built by `ConvertMarkToPDFVector`:
`BuildPalette(cfg.Mark.ColorConfig, cfg.Mark.MarkerOpacity)`. -/
def markConvertPalette (cfg : Config) : Palette :=
  buildPalette cfg.mark cfg.markMarkerOpacity

/-- A color triple whose channels all fit in a byte. -/
abbrev isByteColor (c : Nat × Nat × Nat) : Prop := c.1 < 256 ∧ c.2.1 < 256 ∧ c.2.2 < 256

theorem goByte_natCast (n : Nat) (h : n < 256) : goByte (n : ℚ) = n := by
  unfold goByte
  rw [Int.floor_natCast]
  simp [Nat.mod_eq_of_lt h]

theorem interpChan_at_start (s e js dist : Nat) (hs : s < 256) :
    interpChan s e js dist js = s := by
  unfold interpChan
  rw [sub_self, zero_div, zero_mul, add_zero]
  exact goByte_natCast s hs

theorem interpChan_at_end (s e js dist j : Nat) (hj : js + dist = j) (hd : 0 < dist)
    (he : e < 256) : interpChan s e js dist j = e := by
  unfold interpChan
  have hd' : (dist : ℚ) ≠ 0 := Nat.cast_ne_zero.mpr (by omega)
  have hj' : (j : ℚ) = (js : ℚ) + (dist : ℚ) := by exact_mod_cast congrArg (Nat.cast : Nat → ℚ) hj.symm
  have hval : (s : ℚ) + (((j : ℚ) - (js : ℚ)) / (dist : ℚ)) * ((e : ℚ) - (s : ℚ)) = (e : ℚ) := by
    rw [hj']
    field_simp
  rw [hval]
  exact goByte_natCast e he

theorem interpColor_at_start (s e : Nat × Nat × Nat) (js dist : Nat) (hs : isByteColor s) :
    interpColor s e js dist js = s := by
  obtain ⟨s1, s2, s3⟩ := s
  obtain ⟨h1, h2, h3⟩ := hs
  simp [interpColor, interpChan_at_start _ _ _ _ h1, interpChan_at_start _ _ _ _ h2,
    interpChan_at_start _ _ _ _ h3]

theorem interpColor_at_end (s e : Nat × Nat × Nat) (js dist j : Nat) (hj : js + dist = j)
    (hd : 0 < dist) (he : isByteColor e) : interpColor s e js dist j = e := by
  obtain ⟨e1, e2, e3⟩ := e
  obtain ⟨h1, h2, h3⟩ := he
  simp [interpColor, interpChan_at_end _ _ _ _ _ hj hd h1, interpChan_at_end _ _ _ _ _ hj hd h2,
    interpChan_at_end _ _ _ _ _ hj hd h3]

/-- C5: for every choice of the four anchor colors (as parsed byte triples),
the palette maps each anchor code `0`, `157`, `201`, `255` to exactly its
configured anchor color, byte-exact in each channel; moreover the shared
segment endpoints `157` and `201`, which the interpolation loops compute twice
(once as the end of one segment, once as the start of the next), receive the
identical anchor value from both computations. -/
theorem claim_C5_palette_anchors (b dg lg w : Nat × Nat × Nat)
    (hb : isByteColor b) (hdg : isByteColor dg) (hlg : isByteColor lg) (hw : isByteColor w) :
    paletteColor b dg lg w 0 = b ∧
    paletteColor b dg lg w 157 = dg ∧
    paletteColor b dg lg w 201 = lg ∧
    paletteColor b dg lg w 255 = w ∧
    interpColor b dg 0 157 157 = dg ∧
    interpColor dg lg 157 44 201 = lg := by
  refine ⟨?_, ?_, ?_, ?_, ?_, ?_⟩
  · rw [show paletteColor b dg lg w 0 = basePaletteColor b dg lg w 0 by norm_num [paletteColor]]
    rw [show basePaletteColor b dg lg w 0 = interpColor b dg 0 157 0 by
      norm_num [basePaletteColor]]
    exact interpColor_at_start b dg 0 157 hb
  · rw [show paletteColor b dg lg w 157 = basePaletteColor b dg lg w 157 by
      norm_num [paletteColor]]
    rw [show basePaletteColor b dg lg w 157 = interpColor dg lg 157 44 157 by
      norm_num [basePaletteColor]]
    exact interpColor_at_start dg lg 157 44 hdg
  · rw [show paletteColor b dg lg w 201 = basePaletteColor b dg lg w 201 by
      norm_num [paletteColor]]
    rw [show basePaletteColor b dg lg w 201 = interpColor lg w 201 54 201 by
      norm_num [basePaletteColor]]
    exact interpColor_at_start lg w 201 54 hlg
  · rw [show paletteColor b dg lg w 255 = basePaletteColor b dg lg w 255 by
      norm_num [paletteColor]]
    rw [show basePaletteColor b dg lg w 255 = interpColor lg w 201 54 255 by
      norm_num [basePaletteColor]]
    exact interpColor_at_end lg w 201 54 255 (by norm_num) (by norm_num) hw
  · exact interpColor_at_end b dg 0 157 157 (by norm_num) (by norm_num) hdg
  · exact interpColor_at_end dg lg 157 44 201 (by norm_num) (by norm_num) hlg

theorem claim_C5_witness :
    paletteColor (0, 0, 0) (157, 157, 157) (201, 201, 201) (255, 255, 255) 157
      = (157, 157, 157) ∧
    paletteColor (10, 20, 30) (40, 50, 60) (70, 80, 90) (100, 110, 120) 255
      = (100, 110, 120) :=
  ⟨(claim_C5_palette_anchors (0, 0, 0) (157, 157, 157) (201, 201, 201) (255, 255, 255)
      (by decide) (by decide) (by decide) (by decide)).2.1,
   (claim_C5_palette_anchors (10, 20, 30) (40, 50, 60) (70, 80, 90) (100, 110, 120)
      (by decide) (by decide) (by decide) (by decide)).2.2.2.1⟩

/-- C10: `ConvertNoteToPDFVector` builds its palette with the marker opacity
hard-coded to `0.2`, so marker codes `0x66`–`0x68` get alpha byte `51` for
every configuration, and the `.note` palette does not depend on
`cfg.Mark.MarkerOpacity` at all; `ConvertMarkToPDFVector` passes the configured
value through, so (for example) the default `marker_opacity = 0.38` yields
alpha byte `96` there. -/
theorem claim_C10_marker_opacity :
    (∀ cfg : Config,
      (noteConvertPalette cfg).alphas 0x66 = 51 ∧
      (noteConvertPalette cfg).alphas 0x67 = 51 ∧
      (noteConvertPalette cfg).alphas 0x68 = 51) ∧
    (∀ cfg cfg' : Config, cfg.note = cfg'.note →
      noteConvertPalette cfg = noteConvertPalette cfg') ∧
    (∀ cfg : Config, cfg.markMarkerOpacity = (0.38 : ℚ) →
      (markConvertPalette cfg).alphas 0x66 = 96) := by
  have h02 : goByte ((0.2 : ℚ) * 255) = 51 := by
    unfold goByte
    norm_num
    decide
  refine ⟨?_, ?_, ?_⟩
  · intro cfg
    refine ⟨?_, ?_, ?_⟩ <;>
      simp [noteConvertPalette, buildPalette, paletteAlpha, h02]
  · intro cfg cfg' hnote
    simp [noteConvertPalette, buildPalette, hnote]
  · intro cfg hmo
    have h038 : goByte ((0.38 : ℚ) * 255) = 96 := by
      unfold goByte
      norm_num
      decide
    simp [markConvertPalette, buildPalette, paletteAlpha, hmo, h038]

theorem claim_C10_witness :
    (noteConvertPalette ⟨⟨(0, 0, 0), (157, 157, 157), (201, 201, 201), (255, 255, 255)⟩,
      ⟨(0, 0, 0), (157, 157, 157), (201, 201, 201), (255, 255, 255)⟩, (0.38 : ℚ)⟩).alphas 0x66
      = 51 ∧
    (markConvertPalette ⟨⟨(0, 0, 0), (157, 157, 157), (201, 201, 201), (255, 255, 255)⟩,
      ⟨(0, 0, 0), (157, 157, 157), (201, 201, 201), (255, 255, 255)⟩, (0.38 : ℚ)⟩).alphas 0x66
      = 96 :=
  ⟨(claim_C10_marker_opacity.1 _).1, claim_C10_marker_opacity.2.2 _ rfl⟩

/-! ## Tone-layer ordering (`vector.go`, `renderContentColorLayers`)

The final step of `renderContentColorLayers` is
`slices.SortStableFunc(layers, cmp)` with a comparator that orders
reduced-opacity (marker) layers before fully opaque ones and reports ties
otherwise.  `slices.SortStableFunc` is modelled by a stable insertion sort:
any sort that is stable for this comparator produces the same output list.
The traced path tree carried by each layer is irrelevant to the comparator
and is modelled as an opaque `payload` tag, which keeps equal-alpha layers
distinguishable so stability is observable. -/

/-- A tone layer as far as the final sort is concerned: resolved color bytes,
alpha, and a tag standing in for the traced path tree. -/
structure ColorLayer where
  r : Nat
  g : Nat
  b : Nat
  alpha : Nat
  payload : Nat
deriving DecidableEq

/-- The comparator passed to `slices.SortStableFunc`: markers (alpha < 255)
sort before opaque layers, everything else ties. -/
def layerCmp (a b : ColorLayer) : Int :=
  if a.alpha < 255 ∧ ¬ b.alpha < 255 then -1
  else if ¬ a.alpha < 255 ∧ b.alpha < 255 then 1
  else 0

/-- Stable insertion into an already sorted list: `x` goes in front of the
first element it does not strictly follow, hence before all elements that
compare equal to it (they come from later positions of the original list). -/
def insertCmp (cmp : ColorLayer → ColorLayer → Int) (x : ColorLayer) :
    List ColorLayer → List ColorLayer
  | [] => [x]
  | y :: ys => if cmp x y ≤ 0 then x :: y :: ys else y :: insertCmp cmp x ys

/-- Stable sort (model of `slices.SortStableFunc`). -/
def sortStableFunc (cmp : ColorLayer → ColorLayer → Int) : List ColorLayer → List ColorLayer
  | [] => []
  | x :: xs => insertCmp cmp x (sortStableFunc cmp xs)

theorem insertCmp_front (x : ColorLayer) (ys : List ColorLayer)
    (h : ∀ z ∈ ys, layerCmp x z ≤ 0) : insertCmp layerCmp x ys = x :: ys := by
  cases ys with
  | nil => rfl
  | cons y ys =>
    unfold insertCmp
    rw [if_pos (h y (List.mem_cons_self y ys))]

theorem insertCmp_skip (x : ColorLayer) (A B : List ColorLayer)
    (h : ∀ z ∈ A, ¬ layerCmp x z ≤ 0) :
    insertCmp layerCmp x (A ++ B) = A ++ insertCmp layerCmp x B := by
  induction A with
  | nil => rfl
  | cons a A ih =>
    rw [List.cons_append]
    rw [show insertCmp layerCmp x (a :: (A ++ B))
        = if layerCmp x a ≤ 0 then x :: a :: (A ++ B) else a :: insertCmp layerCmp x (A ++ B)
      from rfl]
    rw [if_neg (h a (List.mem_cons_self a A))]
    rw [ih (fun z hz => h z (List.mem_cons_of_mem a hz))]
    rw [List.cons_append]

theorem layerCmp_marker_le (x z : ColorLayer) (hx : x.alpha < 255) : layerCmp x z ≤ 0 := by
  unfold layerCmp
  split_ifs <;> omega

theorem layerCmp_opaque_marker (x z : ColorLayer) (hx : ¬ x.alpha < 255)
    (hz : z.alpha < 255) : ¬ layerCmp x z ≤ 0 := by
  unfold layerCmp
  rw [if_neg (by tauto), if_pos ⟨hx, hz⟩]
  omega

theorem layerCmp_opaque_le (x z : ColorLayer) (hx : ¬ x.alpha < 255)
    (hz : ¬ z.alpha < 255) : layerCmp x z ≤ 0 := by
  unfold layerCmp
  rw [if_neg (by tauto), if_neg (by tauto)]

theorem sortStableFunc_partition (l : List ColorLayer) :
    sortStableFunc layerCmp l =
      l.filter (fun a => decide (a.alpha < 255)) ++
        l.filter (fun a => decide (¬ a.alpha < 255)) := by
  induction l with
  | nil => rfl
  | cons x xs ih =>
    rw [show sortStableFunc layerCmp (x :: xs)
        = insertCmp layerCmp x (sortStableFunc layerCmp xs) from rfl, ih]
    by_cases hx : x.alpha < 255
    · rw [insertCmp_front x _ ?front]
      · simp [List.filter_cons, hx]
      case front =>
        intro z _
        exact layerCmp_marker_le x z hx
    · rw [insertCmp_skip x _ _ ?skip]
      · rw [insertCmp_front x _ ?front]
        · simp [List.filter_cons, hx]
          rw [if_pos (by omega)]
        case front =>
          intro z hz
          have := List.of_mem_filter hz
          exact layerCmp_opaque_le x z hx (by simpa using this)
      case skip =>
        intro z hz
        have := List.of_mem_filter hz
        exact layerCmp_opaque_marker x z hx (by simpa using this)

/-- C8: the final sort of `renderContentColorLayers` is stable and partitions
by opacity class — every layer with alpha < 255 (marker) comes before every
layer with alpha = 255 (ink), and inside each class the layers keep the order
in which they were appended (the result is exactly the marker entries in
original order followed by the opaque entries in original order). -/
theorem claim_C8_stable_partition (l : List ColorLayer) (hbyte : ∀ cl ∈ l, cl.alpha ≤ 255) :
    sortStableFunc layerCmp l =
      l.filter (fun a => decide (a.alpha < 255)) ++
        l.filter (fun a => decide (a.alpha = 255)) := by
  rw [sortStableFunc_partition l]
  congr 1
  apply List.filter_congr
  intro x hx
  have := hbyte x hx
  simp only [decide_eq_decide]
  omega

theorem claim_C8_witness :
    sortStableFunc layerCmp
        [⟨0, 0, 0, 51, 1⟩, ⟨9, 9, 9, 255, 2⟩, ⟨0, 0, 0, 51, 3⟩, ⟨9, 9, 9, 255, 4⟩]
      = [⟨0, 0, 0, 51, 1⟩, ⟨0, 0, 0, 51, 3⟩, ⟨9, 9, 9, 255, 2⟩, ⟨9, 9, 9, 255, 4⟩] := by
  have h := claim_C8_stable_partition
    [⟨0, 0, 0, 51, 1⟩, ⟨9, 9, 9, 255, 2⟩, ⟨0, 0, 0, 51, 3⟩, ⟨9, 9, 9, 255, 4⟩]
    (by decide)
  simpa using h

/-! ## Cross-page link placeholder resolution (`vector.go`,
`ConvertNoteToPDFVector`)

After all page chunks are built, the converter runs, for every destination
page index `destPage` in ascending order,
`bytes.ReplaceAll(data, "PAGEOBJ_"+destPage, destObjID+" 0 R")` on each page
object.  `bytes.ReplaceAll` is plain substring replacement, scanning left to
right and replacing non-overlapping occurrences.  It is modelled below with a
fuel argument (the remaining input length bounds the number of steps, so
`replaceAll` runs the worker with fuel equal to the input length); the
empty-pattern case of `bytes.ReplaceAll` never arises here since every
placeholder is nonempty. -/

/-- Worker for `bytes.ReplaceAll`: at each position, if the (nonempty) pattern
matches here, emit the replacement and continue after the matched segment,
otherwise keep one character and continue. -/
def replaceAllGo (pat rep : List Char) : Nat → List Char → List Char
  | 0, s => s
  | fuel + 1, s =>
    match s with
    | [] => []
    | c :: s' =>
      if pat ≠ [] ∧ List.take pat.length s = pat then
        rep ++ replaceAllGo pat rep fuel (List.drop pat.length s)
      else c :: replaceAllGo pat rep fuel s'

/-- Go `bytes.ReplaceAll(s, pat, rep)` for a nonempty pattern. -/
def replaceAll (pat rep s : List Char) : List Char :=
  replaceAllGo pat rep s.length s

/-- The second (link-resolution) pass of `ConvertNoteToPDFVector`: for each
destination page index in ascending order, textually replace
`PAGEOBJ_<destPage>` by `<destObjID> 0 R` in a page object's bytes. -/
def resolvePlaceholders (pageObjIDs : List Nat) (data : List Char) : List Char :=
  (pageObjIDs.enum).foldl
    (fun d pr =>
      replaceAll (String.toList ("PAGEOBJ_" ++ Nat.repr pr.1))
        (String.toList (Nat.repr pr.2 ++ " 0 R")) d)
    data

/-- C1 fails on the code: in a 13-page document whose third page (object ids
`3..15`, one object per page here) links to destination page 12, the
ascending-order substitution replaces the `PAGEOBJ_1` *prefix* inside
`PAGEOBJ_12` with page 1's reference `4 0 R`, leaving the corrupted text
`4 0 R2` instead of page 12's reference `15 0 R`: the substitution is plain
substring replacement, not exact-match on the placeholder token. -/
theorem claim_C1_prefix_corruption :
    resolvePlaceholders [3, 4, 5, 6, 7, 8, 9, 10, 11, 12, 13, 14, 15]
        (String.toList "/D [PAGEOBJ_12 /Fit]")
      = String.toList "/D [4 0 R2 /Fit]" ∧
    resolvePlaceholders [3, 4, 5, 6, 7, 8, 9, 10, 11, 12, 13, 14, 15]
        (String.toList "/D [PAGEOBJ_12 /Fit]")
      ≠ String.toList "/D [15 0 R /Fit]" := by decide

/-! ## Metadata-block parser (`parseMetadataBlock`)

`parseMetadataBlock` reads a 4-byte length and that many bytes, then scans the
buffer for `<KEY:VALUE>` records with index arithmetic.  The buffer scan is
modelled over `List Char`; the Go `map[string]string` result is modelled as
the association list of records in parse order (Go map assignment means a
later record with the same key shadows an earlier one; the list retains both,
which is strictly more informative).  The inner index scans become
`scanColon` (find `:` stopping at `<`/`>`/end) and `scanClose` (find `>`).
The outer loop advances one byte at a time when not at a `<`, which is the
`parseRecords buf` recursion on the tail. -/

/-- Scan for the `:` separator, failing when `>` or `<` or the end of the
buffer is reached first; on success returns the key and the remainder after
the colon. -/
def scanColon : List Char → Option (List Char × List Char)
  | [] => none
  | c :: cs =>
    if c = ':' then some ([], cs)
    else if c = '>' ∨ c = '<' then none
    else
      match scanColon cs with
      | some (k, r) => some (c :: k, r)
      | none => none

/-- Scan for the closing `>`; on success returns the value and the remainder
after it. -/
def scanClose : List Char → Option (List Char × List Char)
  | [] => none
  | c :: cs =>
    if c = '>' then some ([], cs)
    else
      match scanClose cs with
      | some (v, r) => some (c :: v, r)
      | none => none

theorem scanColon_length : ∀ (l k r : List Char), scanColon l = some (k, r) →
    r.length < l.length
  | [], k, r, h => by simp [scanColon] at h
  | c :: cs, k, r, h => by
    rw [scanColon.eq_def] at h
    simp only at h
    split_ifs at h with h1 h2
    · injection h with h
      injection h with hk hr
      subst hr
      simp only [List.length_cons]
      omega
    · cases h3 : scanColon cs with
      | none => rw [h3] at h; simp at h
      | some pr =>
        obtain ⟨k', r'⟩ := pr
        rw [h3] at h
        simp only at h
        injection h with h
        injection h with hk hr
        subst hr
        have := scanColon_length cs k' r' h3
        simp only [List.length_cons]
        omega

theorem scanClose_length : ∀ (l v r : List Char), scanClose l = some (v, r) →
    r.length < l.length
  | [], v, r, h => by simp [scanClose] at h
  | c :: cs, v, r, h => by
    rw [scanClose.eq_def] at h
    simp only at h
    split_ifs at h with h1
    · injection h with h
      injection h with hv hr
      subst hr
      simp only [List.length_cons]
      omega
    · cases h3 : scanClose cs with
      | none => rw [h3] at h; simp at h
      | some pr =>
        obtain ⟨v', r'⟩ := pr
        rw [h3] at h
        simp only at h
        injection h with h
        injection h with hv hr
        subst hr
        have := scanClose_length cs v' r' h3
        simp only [List.length_cons]
        omega

/-- The record-scanning loop of `parseMetadataBlock`: skip to the next `<`;
find the `:` (skipping the record and rescanning after the `<` when there is
none before `<`/`>`/end); find the closing `>` (terminating the whole block
scan when missing); keep the record and continue after the `>`. -/
def parseRecords : List Char → List (List Char × List Char)
  | [] => []
  | c :: buf =>
    if c ≠ '<' then parseRecords buf
    else
      match h1 : scanColon buf with
      | none => parseRecords buf
      | some (key, afterColon) =>
        match h2 : scanClose afterColon with
        | none => []
        | some (value, rest2) => (key, value) :: parseRecords rest2
termination_by l => l.length
decreasing_by
  · simp only [List.length_cons]
    omega
  · simp only [List.length_cons]
    omega
  · have ha := scanColon_length _ _ _ h1
    have hb := scanClose_length _ _ _ h2
    simp only [List.length_cons]
    omega

@[simp] theorem parseRecords_nil : parseRecords [] = [] := by
  rw [parseRecords.eq_def]

/-- Serialization of a record list in the block format:
`<KEY1:VALUE1><KEY2:VALUE2>...` with no separators. -/
def serializeRecords : List (List Char × List Char) → List Char
  | [] => []
  | (k, v) :: rest => '<' :: (k ++ ':' :: (v ++ '>' :: serializeRecords rest))

/-- A well-formed key: contains none of the three delimiter characters. -/
abbrev validKey (k : List Char) : Prop := ∀ c ∈ k, c ≠ ':' ∧ c ≠ '<' ∧ c ≠ '>'

/-- A well-formed value: contains no closing delimiter (it may contain `<`
and `:`). -/
abbrev validValue (v : List Char) : Prop := ∀ c ∈ v, c ≠ '>'

/-- A well-formed record list. -/
abbrev validRecs (rs : List (List Char × List Char)) : Prop :=
  ∀ r ∈ rs, validKey r.1 ∧ validValue r.2

theorem scanColon_key (k rest : List Char) (hk : validKey k) :
    scanColon (k ++ ':' :: rest) = some (k, rest) := by
  induction k with
  | nil => simp [scanColon]
  | cons c k ih =>
    obtain ⟨h1, h2, h3⟩ := hk c (List.mem_cons_self c k)
    rw [List.cons_append, scanColon.eq_def]
    simp only
    rw [if_neg h1, if_neg (by tauto)]
    rw [ih (fun d hd => hk d (List.mem_cons_of_mem c hd))]

theorem scanClose_value (v rest : List Char) (hv : validValue v) :
    scanClose (v ++ '>' :: rest) = some (v, rest) := by
  induction v with
  | nil => simp [scanClose]
  | cons c v ih =>
    have h1 := hv c (List.mem_cons_self c v)
    rw [List.cons_append, scanClose.eq_def]
    simp only
    rw [if_neg h1]
    rw [ih (fun d hd => hv d (List.mem_cons_of_mem c hd))]

theorem scanColon_stops (k t : List Char) (hk : validKey k)
    (ht : t = [] ∨ (∃ r, t = '<' :: r) ∨ (∃ r, t = '>' :: r)) :
    scanColon (k ++ t) = none := by
  induction k with
  | nil =>
    rcases ht with rfl | ⟨r, rfl⟩ | ⟨r, rfl⟩
    · rfl
    · simp [scanColon]
    · simp [scanColon]
  | cons c k ih =>
    obtain ⟨h1, h2, h3⟩ := hk c (List.mem_cons_self c k)
    rw [List.cons_append, scanColon.eq_def]
    simp only
    rw [if_neg h1, if_neg (by tauto)]
    rw [ih (fun d hd => hk d (List.mem_cons_of_mem c hd))]

theorem scanClose_misses (v : List Char) (hv : validValue v) : scanClose v = none := by
  induction v with
  | nil => rfl
  | cons c v ih =>
    have h1 := hv c (List.mem_cons_self c v)
    rw [scanClose.eq_def]
    simp only
    rw [if_neg h1]
    rw [ih (fun d hd => hv d (List.mem_cons_of_mem c hd))]

theorem parseRecords_skip (l rest : List Char) (hl : '<' ∉ l) :
    parseRecords (l ++ rest) = parseRecords rest := by
  induction l with
  | nil => rfl
  | cons c l ih =>
    have hc : c ≠ '<' := fun h => hl (h ▸ List.mem_cons_self c l)
    rw [List.cons_append, parseRecords.eq_def]
    simp only
    rw [if_pos hc]
    exact ih (fun h => hl (List.mem_cons_of_mem c h))

theorem parseRecords_serialize_append (rs : List (List Char × List Char))
    (h : validRecs rs) (tail : List Char) :
    parseRecords (serializeRecords rs ++ tail) = rs ++ parseRecords tail := by
  induction rs with
  | nil => rfl
  | cons r rest ih =>
    obtain ⟨k, v⟩ := r
    have hk : validKey k := (h _ (List.mem_cons_self _ _)).1
    have hv : validValue v := (h _ (List.mem_cons_self _ _)).2
    rw [serializeRecords]
    have hassoc : ('<' :: (k ++ ':' :: (v ++ '>' :: serializeRecords rest))) ++ tail
        = '<' :: (k ++ ':' :: (v ++ '>' :: (serializeRecords rest ++ tail))) := by
      simp [List.cons_append, List.append_assoc]
    rw [hassoc, parseRecords.eq_def]
    simp only
    rw [if_neg (by simp)]
    split
    · rename_i hnone
      rw [scanColon_key k _ hk] at hnone
      simp at hnone
    · rename_i key' after' hsome
      rw [scanColon_key k _ hk] at hsome
      injection hsome with hsome
      injection hsome with hkey hafter
      subst hkey
      subst hafter
      split
      · rename_i hnone2
        rw [scanClose_value v _ hv] at hnone2
        simp at hnone2
      · rename_i value' rest2' hsome2
        rw [scanClose_value v _ hv] at hsome2
        injection hsome2 with hsome2
        injection hsome2 with hval hrest
        subst hval
        subst hrest
        rw [ih (fun r hr => h r (List.mem_cons_of_mem _ hr))]
        rfl

/-- C6: metadata-block record scanning is total and tolerant: (1) every block
that is a concatenation of well-formed `<KEY:VALUE>` records parses back to
exactly those records; (2) a malformed record with no `:` before the next `<`
(equivalently before end of block) or before a `>` is skipped and parsing
continues with the following records; (3) a record whose closing `>` is
missing terminates parsing of the block early without an error, keeping all
records parsed so far. -/
theorem claim_C6_tolerant_parse :
    (∀ rs : List (List Char × List Char), validRecs rs →
      parseRecords (serializeRecords rs) = rs) ∧
    (∀ (pre suf : List (List Char × List Char)) (k : List Char),
      validRecs pre → validRecs suf → validKey k →
      parseRecords (serializeRecords pre ++ '<' :: (k ++ serializeRecords suf))
        = pre ++ suf ∧
      parseRecords (serializeRecords pre ++ '<' :: (k ++ '>' :: serializeRecords suf))
        = pre ++ suf) ∧
    (∀ (pre : List (List Char × List Char)) (k v : List Char),
      validRecs pre → validKey k → validValue v →
      parseRecords (serializeRecords pre ++ '<' :: (k ++ ':' :: v)) = pre) := by
  have hser_shape : ∀ rs : List (List Char × List Char),
      serializeRecords rs = [] ∨ ∃ r, serializeRecords rs = '<' :: r := by
    intro rs
    cases rs with
    | nil => exact Or.inl rfl
    | cons r rest =>
      obtain ⟨k, v⟩ := r
      exact Or.inr ⟨_, rfl⟩
  have hparse_lt : ∀ (k : List Char) (t : List Char), validKey k →
      (t = [] ∨ (∃ r, t = '<' :: r) ∨ (∃ r, t = '>' :: r)) →
      parseRecords ('<' :: (k ++ t)) = parseRecords (k ++ t) := by
    intro k t hk ht
    rw [parseRecords.eq_def]
    simp only
    rw [if_neg (by simp)]
    split
    · rfl
    · rename_i key' after' hsome
      rw [scanColon_stops k t hk ht] at hsome
      simp at hsome
  refine ⟨?_, ?_, ?_⟩
  · intro rs h
    have := parseRecords_serialize_append rs h []
    rw [parseRecords_nil] at this
    simpa using this
  · intro pre suf k hpre hsuf hk
    have hsuffix : ∀ t : List Char,
        (t = [] ∨ (∃ r, t = '<' :: r) ∨ (∃ r, t = '>' :: r)) →
        ('<' ∉ k) → parseRecords (k ++ t) = parseRecords t := fun t _ hknot =>
      parseRecords_skip k t hknot
    have hknot : '<' ∉ k := fun hmem => ((hk '<' hmem).2.1 rfl)
    constructor
    · rw [parseRecords_serialize_append pre hpre]
      rw [hparse_lt k (serializeRecords suf) hk (by
        rcases hser_shape suf with h0 | ⟨r, h0⟩
        · exact Or.inl h0
        · exact Or.inr (Or.inl ⟨r, h0⟩))]
      rw [parseRecords_skip k _ hknot]
      rw [show parseRecords (serializeRecords suf)
          = parseRecords (serializeRecords suf ++ []) by simp]
      rw [parseRecords_serialize_append suf hsuf []]
      simp
    · rw [parseRecords_serialize_append pre hpre]
      rw [show ('<' :: (k ++ '>' :: serializeRecords suf))
          = '<' :: (k ++ ('>' :: serializeRecords suf)) from rfl]
      rw [hparse_lt k ('>' :: serializeRecords suf) hk (Or.inr (Or.inr ⟨_, rfl⟩))]
      rw [parseRecords_skip k _ hknot]
      rw [show parseRecords ('>' :: serializeRecords suf)
          = parseRecords ([] ++ serializeRecords suf) by
        rw [parseRecords.eq_def]
        simp]
      rw [show ([] : List Char) ++ serializeRecords suf = serializeRecords suf ++ [] by simp]
      rw [parseRecords_serialize_append suf hsuf []]
      simp
  · intro pre k v hpre hk hv
    rw [parseRecords_serialize_append pre hpre]
    rw [parseRecords.eq_def]
    simp only
    rw [if_neg (by simp)]
    split
    · rename_i hnone
      rw [scanColon_key k v hk] at hnone
      simp at hnone
    · rename_i key' after' hsome
      rw [scanColon_key k v hk] at hsome
      injection hsome with hsome
      injection hsome with hkey hafter
      subst hkey
      subst hafter
      split
      · simp
      · rename_i value' rest2' hsome2
        rw [scanClose_misses v hv] at hsome2
        simp at hsome2

theorem claim_C6_witness :
    parseRecords (serializeRecords [(['A'], ['1']), (['B'], ['2'])]) = [(['A'], ['1']), (['B'], ['2'])] ∧
    parseRecords (serializeRecords [(['A'], ['1'])] ++ '<' :: (['J'] ++ '>' :: serializeRecords [(['B'], ['2'])]))
      = [(['A'], ['1'])] ++ [(['B'], ['2'])] ∧
    parseRecords (serializeRecords [(['A'], ['1'])] ++ '<' :: (['B'] ++ ':' :: ['x'])) = [(['A'], ['1'])] :=
  ⟨claim_C6_tolerant_parse.1 _ (by decide),
   (claim_C6_tolerant_parse.2.1 [(['A'], ['1'])] [(['B'], ['2'])] ['J']
      (by decide) (by decide) (by decide)).2,
   claim_C6_tolerant_parse.2.2 [(['A'], ['1'])] ['B'] ['x'] (by decide) (by decide) (by decide)⟩

/-! ## Fill sinks (`rle.go`, `fillRGBA`, `fillRGB`, `fillCodes`)

Go index assignments and slice expressions panic when out of range, so the
fill sinks are modelled in `Option` with `none` as the panic outcome:
`setByte` models `l[i] = v`, `goCopyWithin` models
`copy(l[dstLo:dstHi], l[srcLo:srcHi])` including the bounds checks performed
when the two slice expressions are formed (`lo ≤ hi ≤ len`); the copy itself
copies `min` of the two slice lengths, reading the source from the state
before the call (source and destination ranges never overlap here).  The
doubling loops recurse on a fuel argument; fuel `bound + 1` strictly exceeds
the iteration count because the loop variable doubles from at least 1 up to
its bound. -/

/-- Go `l[i] = v`: in-range updates the list, out-of-range panics. -/
def setByte (l : List Nat) (i v : Nat) : Option (List Nat) :=
  if i < l.length then some (l.set i v) else none

/-- Copy `n` bytes of `src` starting at `srcLo` into positions
`dstLo..dstLo+n-1` of the accumulator. -/
def copySeg (src : List Nat) (dstLo srcLo : Nat) : Nat → List Nat → List Nat
  | 0, acc => acc
  | n + 1, acc => copySeg src dstLo srcLo n (acc.set (dstLo + n) (src.getD (srcLo + n) 0))

/-- Go `copy(l[dstLo:dstHi], l[srcLo:srcHi])`: forming either slice panics
unless `lo ≤ hi ≤ len`; the copy transfers the minimum of the two slice
lengths. -/
def goCopyWithin (l : List Nat) (dstLo dstHi srcLo srcHi : Nat) : Option (List Nat) :=
  if dstLo ≤ dstHi ∧ dstHi ≤ l.length ∧ srcLo ≤ srcHi ∧ srcHi ≤ l.length then
    some (copySeg l dstLo srcLo (min (dstHi - dstLo) (srcHi - srcLo)) l)
  else none

/-- The doubling loop shared by `fillRGBA` and `fillCodes`:
`for filled := f0; filled < e-start; filled *= 2 { copy(buf[start+filled:e], buf[start:start+filled]) }`. -/
def fillLoopBytes (start e : Nat) : Nat → Nat → List Nat → Option (List Nat)
  | 0, filled, l => if filled < e - start then none else some l
  | fuel + 1, filled, l =>
    if filled < e - start then
      match goCopyWithin l (start + filled) e start (start + filled) with
      | none => none
      | some l2 => fillLoopBytes start e fuel (filled * 2) l2
    else some l

/-- The doubling loop of `fillRGB`, whose condition is `filled < count` (the
requested pixel count, not the clamped byte range):
`for filled := 1; filled < count; filled *= 2 { copy(rgb[start+filled*3:e], rgb[start:start+filled*3]) }`. -/
def fillLoopRGB (start e count : Nat) : Nat → Nat → List Nat → Option (List Nat)
  | 0, filled, l => if filled < count then none else some l
  | fuel + 1, filled, l =>
    if filled < count then
      match goCopyWithin l (start + filled * 3) e start (start + filled * 3) with
      | none => none
      | some l2 => fillLoopRGB start e count fuel (filled * 2) l2
    else some l

/-- `fillRGBA(rgba, pos, count, r, g, b, alpha)`. -/
def fillRGBA (rgba : List Nat) (pos count r g b alpha : Nat) : Option (List Nat) :=
  let start := pos * 4
  let e := min (start + count * 4) rgba.length
  if e ≤ start then some rgba
  else
    (setByte rgba start r).bind fun l1 =>
    (setByte l1 (start + 1) g).bind fun l2 =>
    (setByte l2 (start + 2) b).bind fun l3 =>
    (setByte l3 (start + 3) alpha).bind fun l4 =>
    fillLoopBytes start e (e + 1) 4 l4

/-- `fillRGB(rgb, pos, count, r, g, b)`. -/
def fillRGB (rgb : List Nat) (pos count r g b : Nat) : Option (List Nat) :=
  let start := pos * 3
  let e := min (start + count * 3) rgb.length
  if e ≤ start then some rgb
  else
    (setByte rgb start r).bind fun l1 =>
    (setByte l1 (start + 1) g).bind fun l2 =>
    (setByte l2 (start + 2) b).bind fun l3 =>
    fillLoopRGB start e count (count + 1) 1 l3

/-- `fillCodes(buf, pos, count, code)`. -/
def fillCodes (buf : List Nat) (pos count code : Nat) : Option (List Nat) :=
  let e := min (pos + count) buf.length
  if e ≤ pos then some buf
  else
    (setByte buf pos code).bind fun l1 =>
    fillLoopBytes pos e (e + 1) 1 l1

theorem copySeg_length (src : List Nat) (d s0 : Nat) :
    ∀ (n : Nat) (acc : List Nat), (copySeg src d s0 n acc).length = acc.length
  | 0, acc => rfl
  | n + 1, acc => by
    rw [copySeg, copySeg_length src d s0 n]
    simp

theorem copySeg_getD (src : List Nat) (d s0 : Nat) :
    ∀ (n : Nat) (acc : List Nat) (i : Nat), i < d ∨ d + n ≤ i →
      (copySeg src d s0 n acc).getD i 0 = acc.getD i 0
  | 0, acc, i, _ => rfl
  | n + 1, acc, i, hi => by
    rw [copySeg]
    rw [copySeg_getD src d s0 n _ i (by omega)]
    have hne : d + n ≠ i := by omega
    simp [List.getD, List.getElem?_set_ne hne]

theorem fillLoopBytes_safe (start e : Nat) :
    ∀ (fuel filled : Nat) (l : List Nat), 0 < filled → e ≤ l.length →
      e - start < fuel + filled →
      ∃ out, fillLoopBytes start e fuel filled l = some out ∧
        out.length = l.length ∧
        ∀ i, i < start ∨ e ≤ i → out.getD i 0 = l.getD i 0 := by
  intro fuel
  induction fuel with
  | zero =>
    intro filled l hf hl hfuel
    refine ⟨l, ?_, rfl, fun i _ => rfl⟩
    rw [fillLoopBytes]
    rw [if_neg (by omega)]
  | succ fuel ih =>
    intro filled l hf hl hfuel
    by_cases hcond : filled < e - start
    · have hslice : start + filled ≤ e ∧ e ≤ l.length ∧ start ≤ start + filled ∧
          start + filled ≤ l.length := by omega
      have hcopy : goCopyWithin l (start + filled) e start (start + filled)
          = some (copySeg l (start + filled) start
              (min (e - (start + filled)) (start + filled - start)) l) := by
        rw [goCopyWithin, if_pos ⟨hslice.1, hslice.2.1, hslice.2.2.1, hslice.2.2.2⟩]
      set l2 := copySeg l (start + filled) start
          (min (e - (start + filled)) (start + filled - start)) l with hl2
      have hlen2 : l2.length = l.length := copySeg_length _ _ _ _ _
      have hframe2 : ∀ i, i < start ∨ e ≤ i → l2.getD i 0 = l.getD i 0 := by
        intro i hi
        apply copySeg_getD
        rcases hi with hi | hi
        · omega
        · right
          have := Nat.min_le_left (e - (start + filled)) (start + filled - start)
          omega
      obtain ⟨out, hout, hlen, hfr⟩ := ih (filled * 2) l2 (by omega) (by omega) (by omega)
      refine ⟨out, ?_, by omega, fun i hi => (hfr i hi).trans (hframe2 i hi)⟩
      rw [fillLoopBytes, if_pos hcond, hcopy]
      exact hout
    · refine ⟨l, ?_, rfl, fun i _ => rfl⟩
      rw [fillLoopBytes, if_neg hcond]

theorem fillLoopRGB_safe (start e count : Nat) (hce : start + count * 3 ≤ e) :
    ∀ (fuel filled : Nat) (l : List Nat), 0 < filled → e ≤ l.length →
      count < fuel + filled →
      ∃ out, fillLoopRGB start e count fuel filled l = some out ∧
        out.length = l.length ∧
        ∀ i, i < start ∨ e ≤ i → out.getD i 0 = l.getD i 0 := by
  intro fuel
  induction fuel with
  | zero =>
    intro filled l hf hl hfuel
    refine ⟨l, ?_, rfl, fun i _ => rfl⟩
    rw [fillLoopRGB]
    rw [if_neg (by omega)]
  | succ fuel ih =>
    intro filled l hf hl hfuel
    by_cases hcond : filled < count
    · have hd : start + filled * 3 ≤ e := by
        have : filled * 3 + 3 ≤ count * 3 := by omega
        omega
      have hcopy : goCopyWithin l (start + filled * 3) e start (start + filled * 3)
          = some (copySeg l (start + filled * 3) start
              (min (e - (start + filled * 3)) (start + filled * 3 - start)) l) := by
        rw [goCopyWithin, if_pos ⟨hd, by omega, by omega, by omega⟩]
      set l2 := copySeg l (start + filled * 3) start
          (min (e - (start + filled * 3)) (start + filled * 3 - start)) l with hl2
      have hlen2 : l2.length = l.length := copySeg_length _ _ _ _ _
      have hframe2 : ∀ i, i < start ∨ e ≤ i → l2.getD i 0 = l.getD i 0 := by
        intro i hi
        apply copySeg_getD
        rcases hi with hi | hi
        · omega
        · right
          have := Nat.min_le_left (e - (start + filled * 3)) (start + filled * 3 - start)
          omega
      obtain ⟨out, hout, hlen, hfr⟩ := ih (filled * 2) l2 (by omega) (by omega) (by omega)
      refine ⟨out, ?_, by omega, fun i hi => (hfr i hi).trans (hframe2 i hi)⟩
      rw [fillLoopRGB, if_pos hcond, hcopy]
      exact hout
    · refine ⟨l, ?_, rfl, fun i _ => rfl⟩
      rw [fillLoopRGB, if_neg hcond]

theorem setByte_some (l : List Nat) (i v : Nat) (h : i < l.length) :
    setByte l i v = some (l.set i v) := by
  rw [setByte, if_pos h]

theorem set_getD_ne (l : List Nat) (i j v : Nat) (h : i ≠ j) :
    (l.set i v).getD j 0 = l.getD j 0 := by
  simp [List.getD, List.getElem?_set_ne h]

theorem fillCodes_safe (buf : List Nat) (pos count code : Nat) :
    ∃ out, fillCodes buf pos count code = some out ∧ out.length = buf.length ∧
      ∀ i, i < pos ∨ min (pos + count) buf.length ≤ i → out.getD i 0 = buf.getD i 0 := by
  by_cases hguard : min (pos + count) buf.length ≤ pos
  · refine ⟨buf, ?_, rfl, fun i _ => rfl⟩
    rw [fillCodes]
    rw [if_pos hguard]
  · have hpos : pos < buf.length := by
      have := Nat.min_le_right (pos + count) buf.length
      omega
    obtain ⟨out, hout, hlen, hfr⟩ :=
      fillLoopBytes_safe pos (min (pos + count) buf.length)
        (min (pos + count) buf.length + 1) 1 (buf.set pos code)
        (by omega) (by simp) (by omega)
    refine ⟨out, ?_, by simpa using hlen, ?_⟩
    · rw [fillCodes]
      rw [if_neg hguard, setByte_some buf pos code hpos]
      simpa using hout
    · intro i hi
      rw [hfr i hi, set_getD_ne buf pos i code (by omega)]

theorem fillRGBA_fits (rgba : List Nat) (pos count r g b alpha : Nat)
    (h : pos * 4 + count * 4 ≤ rgba.length) :
    ∃ out, fillRGBA rgba pos count r g b alpha = some out ∧ out.length = rgba.length ∧
      ∀ i, i < pos * 4 ∨ pos * 4 + count * 4 ≤ i → out.getD i 0 = rgba.getD i 0 := by
  have hmin : min (pos * 4 + count * 4) rgba.length = pos * 4 + count * 4 :=
    Nat.min_eq_left h
  by_cases hc : count = 0
  · subst hc
    refine ⟨rgba, ?_, rfl, fun i _ => rfl⟩
    rw [fillRGBA]
    rw [if_pos (by omega)]
  · have hcnt : 4 ≤ count * 4 := by omega
    set start := pos * 4 with hstart
    set e := min (start + count * 4) rgba.length with he
    have hee : e = start + count * 4 := by
      rw [he, hstart]
      omega
    have h0 : start < rgba.length := by omega
    have h1 : start + 1 < rgba.length := by omega
    have h2 : start + 2 < rgba.length := by omega
    have h3 : start + 3 < rgba.length := by omega
    set l1 := rgba.set start r with hl1
    set l2 := l1.set (start + 1) g with hl2
    set l3 := l2.set (start + 2) b with hl3
    set l4 := l3.set (start + 3) alpha with hl4
    have hlen4 : l4.length = rgba.length := by simp [hl4, hl3, hl2, hl1]
    obtain ⟨out, hout, hlen, hfr⟩ :=
      fillLoopBytes_safe start e (e + 1) 4 l4 (by omega) (by omega) (by omega)
    refine ⟨out, ?_, by omega, ?_⟩
    · rw [fillRGBA]
      rw [if_neg (by omega)]
      rw [setByte_some rgba start r h0]
      rw [Option.some_bind]
      rw [setByte_some l1 (start + 1) g (by simp [hl1]; omega)]
      rw [Option.some_bind]
      rw [setByte_some l2 (start + 2) b (by simp [hl2, hl1]; omega)]
      rw [Option.some_bind]
      rw [setByte_some l3 (start + 3) alpha (by simp [hl3, hl2, hl1]; omega)]
      rw [Option.some_bind]
      exact hout
    · intro i hi
      have hi' : i < start ∨ e ≤ i := by omega
      rw [hfr i hi']
      rw [hl4, hl3, hl2, hl1]
      rw [set_getD_ne _ _ _ _ (by omega), set_getD_ne _ _ _ _ (by omega),
        set_getD_ne _ _ _ _ (by omega), set_getD_ne _ _ _ _ (by omega)]

theorem fillRGB_fits (rgb : List Nat) (pos count r g b : Nat)
    (h : pos * 3 + count * 3 ≤ rgb.length) :
    ∃ out, fillRGB rgb pos count r g b = some out ∧ out.length = rgb.length ∧
      ∀ i, i < pos * 3 ∨ pos * 3 + count * 3 ≤ i → out.getD i 0 = rgb.getD i 0 := by
  by_cases hc : count = 0
  · subst hc
    refine ⟨rgb, ?_, rfl, fun i _ => rfl⟩
    rw [fillRGB]
    rw [if_pos (by omega)]
  · have hcnt : 3 ≤ count * 3 := by omega
    set start := pos * 3 with hstart
    set e := min (start + count * 3) rgb.length with he
    have hee : e = start + count * 3 := by
      rw [he, hstart]
      omega
    have h0 : start < rgb.length := by omega
    have h1 : start + 1 < rgb.length := by omega
    have h2 : start + 2 < rgb.length := by omega
    set l1 := rgb.set start r with hl1
    set l2 := l1.set (start + 1) g with hl2
    set l3 := l2.set (start + 2) b with hl3
    have hlen3 : l3.length = rgb.length := by simp [hl3, hl2, hl1]
    obtain ⟨out, hout, hlen, hfr⟩ :=
      fillLoopRGB_safe start e count (by omega) (count + 1) 1 l3
        (by omega) (by omega) (by omega)
    refine ⟨out, ?_, by omega, ?_⟩
    · rw [fillRGB]
      rw [if_neg (by omega)]
      rw [setByte_some rgb start r h0]
      rw [Option.some_bind]
      rw [setByte_some l1 (start + 1) g (by simp [hl1]; omega)]
      rw [Option.some_bind]
      rw [setByte_some l2 (start + 2) b (by simp [hl2, hl1]; omega)]
      rw [Option.some_bind]
      exact hout
    · intro i hi
      have hi' : i < start ∨ e ≤ i := by omega
      rw [hfr i hi']
      rw [hl3, hl2, hl1]
      rw [set_getD_ne _ _ _ _ (by omega), set_getD_ne _ _ _ _ (by omega),
        set_getD_ne _ _ _ _ (by omega)]

/-- C9 (amended): `fillCodes` stays within bounds for every buffer, position
and count (the write range is clamped to the slice, a start at or past the
clamped end writes nothing, and the doubling loop never indexes outside);
`fillRGBA` and `fillRGB` stay within bounds whenever the requested run fits
the buffer (`pos + count` units within the slice — which every call site
guarantees, since `decodeRLE` clamps runs to the raster and the buffers are
raster-sized), and they write nothing when the start lies at or beyond the
buffer; for a buffer cut mid-unit the unrestricted claim fails (see the
counterexample), because their unit writes and `fillRGB`'s `count`-bounded
doubling loop index past a clamped end. -/
theorem claim_C9_fill_bounds :
    (∀ (buf : List Nat) (pos count code : Nat),
      ∃ out, fillCodes buf pos count code = some out ∧ out.length = buf.length ∧
        ∀ i, i < pos ∨ min (pos + count) buf.length ≤ i →
          out.getD i 0 = buf.getD i 0) ∧
    (∀ (rgba : List Nat) (pos count r g b alpha : Nat),
      pos * 4 + count * 4 ≤ rgba.length →
      ∃ out, fillRGBA rgba pos count r g b alpha = some out ∧
        out.length = rgba.length ∧
        ∀ i, i < pos * 4 ∨ pos * 4 + count * 4 ≤ i →
          out.getD i 0 = rgba.getD i 0) ∧
    (∀ (rgb : List Nat) (pos count r g b : Nat),
      pos * 3 + count * 3 ≤ rgb.length →
      ∃ out, fillRGB rgb pos count r g b = some out ∧ out.length = rgb.length ∧
        ∀ i, i < pos * 3 ∨ pos * 3 + count * 3 ≤ i →
          out.getD i 0 = rgb.getD i 0) ∧
    (∀ (rgba : List Nat) (pos count r g b alpha : Nat), rgba.length ≤ pos * 4 →
      fillRGBA rgba pos count r g b alpha = some rgba) ∧
    (∀ (rgb : List Nat) (pos count r g b : Nat), rgb.length ≤ pos * 3 →
      fillRGB rgb pos count r g b = some rgb) := by
  refine ⟨fillCodes_safe, fillRGBA_fits, fillRGB_fits, ?_, ?_⟩
  · intro rgba pos count r g b alpha hlen
    rw [fillRGBA]
    rw [if_pos (by omega)]
  · intro rgb pos count r g b hlen
    rw [fillRGB]
    rw [if_pos (by omega)]

theorem claim_C9_witness :
    fillRGBA [5, 5] 1 3 7 7 7 7 = some [5, 5] ∧
    fillRGB [5, 5, 5] 1 4 7 7 7 = some [5, 5, 5] :=
  ⟨claim_C9_fill_bounds.2.2.2.1 [5, 5] 1 3 7 7 7 7 (by decide),
   claim_C9_fill_bounds.2.2.2.2 [5, 5, 5] 1 4 7 7 7 (by decide)⟩

/-- C9, the claim as frozen, is false for `fillRGB` and `fillRGBA` on runs
that extend past the end of the buffer when the clamp cuts inside a
3- or 4-byte unit: the unconditional unit writes index past the slice (a Go
run-time panic, modelled as `none`). -/
theorem claim_C9_counterexample :
    fillRGB [0, 0] 0 5 7 7 7 = none ∧ fillRGBA [0, 0] 0 1 7 7 7 7 = none := by decide

/-! ## PDF writer (`vector.go`, `pdfWriter.writeXrefTrailer` and the assembly
phase of `ConvertNoteToPDFVector`)

The writer emits the header, the catalog (always object 1), the page-tree
object (always object 2), then every chunk object in order, recording each
object's byte offset into `xrefOffsets[id-1]` right before writing it, and
finally the xref section, trailer and `startxref` footer.  Output bytes are
modelled as `List Nat`; decimal formatting uses `Nat.repr` (`%010d` zero-pads
to ten digits).  The object ids produced by the chunk builder are exactly
`3, 4, ..., totalObjects` in order (a single monotonic counter), which the
theorems take as a hypothesis. -/

/-- Bytes of a string literal. -/
def strBytes (s : String) : List Nat := s.data.map (fun c => c.toNat)

/-- `%PDF-1.7` header plus the binary-signature comment line. -/
def pdfHeader : List Nat := strBytes ("%PDF-1.7\n%") ++ [0xe2, 0xe3, 0xcf, 0xd3, 0x0a]

/-- `%010d`: zero-pad the decimal representation to at least ten digits. -/
def pad10 (n : Nat) : List Nat :=
  List.replicate (10 - (Nat.repr n).length) ('0'.toNat) ++ strBytes (Nat.repr n)

/-- One xref entry line: `%010d 00000 n \n`. -/
def xrefLine (off : Nat) : List Nat := pad10 off ++ strBytes (" 00000 n \n")

/-- `writeXrefTrailer(xrefOffsets, totalObjects)` starting at byte offset
`xrefStart`: xref section header, the fixed free-list entry for object 0, one
line per recorded offset, the trailer with `/Size` and `/Root 1 0 R`, and the
`startxref` footer naming `xrefStart`. -/
def xrefTrailerBytes (xrefOffsets : List Nat) (totalObjects xrefStart : Nat) : List Nat :=
  strBytes ("xref\n") ++
    (strBytes ("0 " ++ Nat.repr (totalObjects + 1) ++ "\n") ++
      (strBytes ("0000000000 65535 f \n") ++
        ((xrefOffsets.map xrefLine).flatten ++
          (strBytes ("trailer\n") ++
            (strBytes ("<< /Size " ++ Nat.repr (totalObjects + 1) ++ " /Root 1 0 R >>\n") ++
              (strBytes ("startxref\n") ++
                (strBytes (Nat.repr xrefStart ++ "\n") ++ strBytes ("%%EOF\n"))))))))

/-- Object 1, the catalog (a literal in `ConvertNoteToPDFVector`). -/
def catalogObj : List Nat := strBytes ("1 0 obj\n<< /Type /Catalog /Pages 2 0 R >>\nendobj\n")

/-- The chunk-writing loop: write each object's bytes in order, recording the
current offset into slot `id - 1` of the offsets array before the write.
Returns the emitted bytes and the final offsets array. -/
def writeObjsLoop : List (Nat × List Nat) → Nat → List Nat → List Nat × List Nat
  | [], _, xref => ([], xref)
  | (oid, d) :: rest, off, xref =>
    let pr := writeObjsLoop rest (off + d.length) (xref.set (oid - 1) off)
    (d ++ pr.1, pr.2)

/-- The offsets array just before the chunk loop runs: slot 0 holds the
catalog's offset (right after the header), slot 1 the page-tree object's
offset. -/
def initialXref (n : Nat) : List Nat :=
  ((List.replicate n 0).set 0 pdfHeader.length).set 1
    (pdfHeader.length + catalogObj.length)

/-- The final recorded offsets array of a document with the given page-tree
object bytes and chunk objects. -/
def pdfXrefTable (pagesObj : List Nat) (chunkObjs : List (Nat × List Nat)) (n : Nat) :
    List Nat :=
  (writeObjsLoop chunkObjs (pdfHeader.length + catalogObj.length + pagesObj.length)
    (initialXref n)).2

/-- The byte sequence of every object of the document, in object-id order:
object 1 is the catalog, object 2 the page tree, objects 3.. the chunk
objects. -/
def pdfObjSeq (pagesObj : List Nat) (chunkObjs : List (Nat × List Nat)) : List (List Nat) :=
  catalogObj :: pagesObj :: chunkObjs.map Prod.snd

/-- Everything written before the xref section. -/
def pdfBodyPrefix (pagesObj : List Nat) (chunkObjs : List (Nat × List Nat)) : List Nat :=
  pdfHeader ++ (catalogObj ++ (pagesObj ++ (chunkObjs.map Prod.snd).flatten))

/-- The complete document emitted by the writer: header, catalog, page tree,
chunk objects, then the xref section and trailer, whose `startxref` value is
the running offset at the moment `writeXrefTrailer` is called. -/
def writeNotePDF (pagesObj : List Nat) (chunkObjs : List (Nat × List Nat)) (n : Nat) :
    List Nat :=
  let off2 := pdfHeader.length + catalogObj.length + pagesObj.length
  let pr := writeObjsLoop chunkObjs off2 (initialXref n)
  pdfHeader ++ (catalogObj ++ (pagesObj ++ (pr.1 ++
    xrefTrailerBytes pr.2 n (off2 + pr.1.length))))

theorem writeObjsLoop_bytes : ∀ (l : List (Nat × List Nat)) (off : Nat) (xref : List Nat),
    (writeObjsLoop l off xref).1 = (l.map Prod.snd).flatten
  | [], _, _ => rfl
  | (oid, d) :: rest, off, xref => by
    rw [writeObjsLoop]
    simp only [List.map_cons, List.flatten_cons]
    rw [writeObjsLoop_bytes rest]

theorem writeObjsLoop_xref_len : ∀ (l : List (Nat × List Nat)) (off : Nat) (xref : List Nat),
    (writeObjsLoop l off xref).2.length = xref.length
  | [], _, _ => rfl
  | (oid, d) :: rest, off, xref => by
    rw [writeObjsLoop]
    simp only
    rw [writeObjsLoop_xref_len rest]
    simp

theorem set_getD_self (l : List Nat) (i v : Nat) (h : i < l.length) :
    (l.set i v).getD i 0 = v := by
  simp [List.getD, List.getElem?_set_self', List.getElem?_eq_getElem h]

theorem writeObjsLoop_xref_frame : ∀ (l : List (Nat × List Nat)) (off : Nat)
    (xref : List Nat) (j : Nat), (∀ p ∈ l, j ≠ p.1 - 1) →
    (writeObjsLoop l off xref).2.getD j 0 = xref.getD j 0
  | [], _, _, _, _ => rfl
  | (oid, d) :: rest, off, xref, j, hj => by
    rw [writeObjsLoop]
    simp only
    rw [writeObjsLoop_xref_frame rest _ _ j
      (fun p hp => hj p (List.mem_cons_of_mem _ hp))]
    exact set_getD_ne xref (oid - 1) j off
      (Ne.symm (hj (oid, d) (List.mem_cons_self _ _)))

theorem writeObjsLoop_xref_entry : ∀ (l : List (Nat × List Nat)) (k off : Nat)
    (xref : List Nat), l.map Prod.fst = List.range' k l.length → 1 ≤ k →
    k - 1 + l.length ≤ xref.length →
    ∀ m, m < l.length →
      (writeObjsLoop l off xref).2.getD (k - 1 + m) 0
        = off + (((l.map Prod.snd).map List.length).take m).sum
  | [], _, _, _, _, _, _, m, hm => absurd hm (by simp)
  | (oid, d) :: rest, k, off, xref, hids, hk, hlen, m, hm => by
    rw [List.map_cons, List.length_cons, List.range'_succ k rest.length 1] at hids
    injection hids with hoid hrest
    have hmemrest : ∀ p ∈ rest, k + 1 ≤ p.1 := by
      intro p hp
      have hmm : p.1 ∈ List.range' (k + 1) rest.length := by
        rw [← hrest]
        exact List.mem_map_of_mem _ hp
      exact (List.mem_range'_1.mp hmm).1
    have hlen' : k - 1 + (rest.length + 1) ≤ xref.length := by
      simpa using hlen
    have hm' : m < rest.length + 1 := by simpa using hm
    have hoid' : oid = k := hoid
    rw [writeObjsLoop]
    simp only [List.map_cons]
    rw [hoid']
    cases m with
    | zero =>
      rw [Nat.add_zero]
      rw [writeObjsLoop_xref_frame rest _ _ (k - 1)
        (fun p hp => by have := hmemrest p hp; omega)]
      rw [set_getD_self xref (k - 1) off (by omega)]
      simp
    | succ m' =>
      have hidx : k - 1 + (m' + 1) = (k + 1) - 1 + m' := by omega
      rw [hidx]
      rw [writeObjsLoop_xref_entry rest (k + 1) (off + d.length) _ hrest (by omega)
        (by simp only [List.length_set]; omega) m' (by omega)]
      rw [List.take_succ_cons, List.sum_cons]
      omega

theorem flattenDropSum : ∀ (objs : List (List Nat)) (m : Nat) (Z : List Nat),
    m < objs.length →
    (objs.flatten ++ Z).drop (((objs.map List.length).take m).sum)
      = objs.getD m [] ++ ((objs.drop (m + 1)).flatten ++ Z)
  | [], m, Z, hm => absurd hm (by simp)
  | o :: rest, 0, Z, _ => by
    simp [List.flatten_cons, List.append_assoc]
  | o :: rest, m + 1, Z, hm => by
    rw [List.map_cons, List.take_succ_cons, List.sum_cons]
    rw [List.flatten_cons, List.append_assoc, List.drop_append]
    rw [List.getD_cons_succ]
    rw [show (o :: rest).drop (m + 1 + 1) = rest.drop (m + 1) from rfl]
    exact flattenDropSum rest m Z (by simpa using hm)

/-- C4: for every document assembled by the writer (page-tree bytes, chunk
objects carrying the sequentially allocated ids `3..totalObjects`, catalog
fixed as object 1), the recorded cross-reference table has exactly one entry
per object id `1..totalObjects`, and dropping the recorded offset from the
output reproduces that object's bytes as a prefix (object 0's fixed free-list
entry is part of the emitted xref section); the output decomposes as the body
followed by `writeXrefTrailer`'s bytes, whose trailer prints `/Size`
`totalObjects + 1` and `/Root 1 0 R` and whose `startxref` value is the byte
offset where the xref section begins — the `xref` keyword is found exactly
there. -/
theorem claim_C4_pdf_writer (pagesObj : List Nat) (chunkObjs : List (Nat × List Nat))
    (n : Nat) (hn : n = 2 + chunkObjs.length)
    (hids : chunkObjs.map Prod.fst = List.range' 3 chunkObjs.length) :
    (pdfXrefTable pagesObj chunkObjs n).length = n ∧
    (pdfObjSeq pagesObj chunkObjs).length = n ∧
    (∀ j, j < n →
      List.take ((pdfObjSeq pagesObj chunkObjs).getD j []).length
          (List.drop ((pdfXrefTable pagesObj chunkObjs n).getD j 0)
            (writeNotePDF pagesObj chunkObjs n))
        = (pdfObjSeq pagesObj chunkObjs).getD j []) ∧
    writeNotePDF pagesObj chunkObjs n
      = pdfBodyPrefix pagesObj chunkObjs ++
          xrefTrailerBytes (pdfXrefTable pagesObj chunkObjs n) n
            (pdfBodyPrefix pagesObj chunkObjs).length ∧
    List.take 5 (List.drop (pdfBodyPrefix pagesObj chunkObjs).length
        (writeNotePDF pagesObj chunkObjs n))
      = strBytes ("xref\n") := by
  have hmem3 : ∀ p ∈ chunkObjs, 3 ≤ p.1 := by
    intro p hp
    have hmm : p.1 ∈ List.range' 3 chunkObjs.length := by
      rw [← hids]
      exact List.mem_map_of_mem _ hp
    exact (List.mem_range'_1.mp hmm).1
  have hxlen : (initialXref n).length = n := by
    simp [initialXref]
  have htablen : (pdfXrefTable pagesObj chunkObjs n).length = n := by
    rw [pdfXrefTable, writeObjsLoop_xref_len, hxlen]
  have hdoc : writeNotePDF pagesObj chunkObjs n
      = pdfHeader ++ (catalogObj ++ (pagesObj ++ ((chunkObjs.map Prod.snd).flatten ++
          xrefTrailerBytes (pdfXrefTable pagesObj chunkObjs n) n
            (pdfHeader.length + catalogObj.length + pagesObj.length +
              (chunkObjs.map Prod.snd).flatten.length)))) := by
    rw [writeNotePDF]
    rw [writeObjsLoop_bytes]
    rfl
  have hprelen : (pdfBodyPrefix pagesObj chunkObjs).length
      = pdfHeader.length + catalogObj.length + pagesObj.length +
        (chunkObjs.map Prod.snd).flatten.length := by
    simp [pdfBodyPrefix]
    omega
  have hdecomp : writeNotePDF pagesObj chunkObjs n
      = pdfBodyPrefix pagesObj chunkObjs ++
          xrefTrailerBytes (pdfXrefTable pagesObj chunkObjs n) n
            (pdfBodyPrefix pagesObj chunkObjs).length := by
    rw [hdoc, hprelen, pdfBodyPrefix]
    simp [List.append_assoc]
  have htail5 : List.take 5 (List.drop (pdfBodyPrefix pagesObj chunkObjs).length
      (writeNotePDF pagesObj chunkObjs n)) = strBytes ("xref\n") := by
    rw [hdecomp, List.drop_left]
    rw [xrefTrailerBytes]
    rw [List.take_append_of_le_length (by decide)]
    decide
  refine ⟨htablen, by simp [pdfObjSeq, hn]; omega, ?_, hdecomp, htail5⟩
  intro j hj
  have htab0 : (pdfXrefTable pagesObj chunkObjs n).getD 0 0 = pdfHeader.length := by
    rw [pdfXrefTable, writeObjsLoop_xref_frame _ _ _ 0
      (fun p hp => by have := hmem3 p hp; omega)]
    rw [initialXref]
    rw [set_getD_ne _ 1 0 _ (by omega)]
    exact set_getD_self _ 0 _ (by simp; omega)
  have htab1 : (pdfXrefTable pagesObj chunkObjs n).getD 1 0
      = pdfHeader.length + catalogObj.length := by
    rw [pdfXrefTable, writeObjsLoop_xref_frame _ _ _ 1
      (fun p hp => by have := hmem3 p hp; omega)]
    rw [initialXref]
    exact set_getD_self _ 1 _ (by simp; omega)
  match j, hj with
  | 0, _ =>
    rw [htab0, hdoc, List.drop_left]
    rw [show (pdfObjSeq pagesObj chunkObjs).getD 0 [] = catalogObj from rfl]
    exact List.take_left _ _
  | 1, _ =>
    rw [htab1, hdoc]
    rw [show pdfHeader ++ (catalogObj ++ (pagesObj ++ ((chunkObjs.map Prod.snd).flatten ++
          xrefTrailerBytes (pdfXrefTable pagesObj chunkObjs n) n
            (pdfHeader.length + catalogObj.length + pagesObj.length +
              (chunkObjs.map Prod.snd).flatten.length))))
        = (pdfHeader ++ catalogObj) ++ (pagesObj ++ ((chunkObjs.map Prod.snd).flatten ++
          xrefTrailerBytes (pdfXrefTable pagesObj chunkObjs n) n
            (pdfHeader.length + catalogObj.length + pagesObj.length +
              (chunkObjs.map Prod.snd).flatten.length)))
      by simp [List.append_assoc]]
    rw [show pdfHeader.length + catalogObj.length = (pdfHeader ++ catalogObj).length
      by simp]
    rw [List.drop_left]
    rw [show (pdfObjSeq pagesObj chunkObjs).getD 1 [] = pagesObj from rfl]
    exact List.take_left _ _
  | (m + 2), hj =>
    have hmlen : m < chunkObjs.length := by omega
    have htabm : (pdfXrefTable pagesObj chunkObjs n).getD (m + 2) 0
        = pdfHeader.length + catalogObj.length + pagesObj.length +
          (((chunkObjs.map Prod.snd).map List.length).take m).sum := by
      rw [pdfXrefTable]
      rw [show m + 2 = 3 - 1 + m by omega]
      rw [writeObjsLoop_xref_entry chunkObjs 3 _ _ hids (by omega)
        (by rw [hxlen]; omega) m hmlen]
    rw [htabm, hdoc]
    rw [show pdfHeader ++ (catalogObj ++ (pagesObj ++ ((chunkObjs.map Prod.snd).flatten ++
          xrefTrailerBytes (pdfXrefTable pagesObj chunkObjs n) n
            (pdfHeader.length + catalogObj.length + pagesObj.length +
              (chunkObjs.map Prod.snd).flatten.length))))
        = (pdfHeader ++ (catalogObj ++ pagesObj)) ++ ((chunkObjs.map Prod.snd).flatten ++
          xrefTrailerBytes (pdfXrefTable pagesObj chunkObjs n) n
            (pdfHeader.length + catalogObj.length + pagesObj.length +
              (chunkObjs.map Prod.snd).flatten.length))
      by simp [List.append_assoc]]
    rw [show pdfHeader.length + catalogObj.length + pagesObj.length +
          (((chunkObjs.map Prod.snd).map List.length).take m).sum
        = (pdfHeader ++ (catalogObj ++ pagesObj)).length +
          (((chunkObjs.map Prod.snd).map List.length).take m).sum
      by simp; omega]
    rw [List.drop_append]
    rw [flattenDropSum (chunkObjs.map Prod.snd) m _ (by simpa using hmlen)]
    rw [show (pdfObjSeq pagesObj chunkObjs).getD (m + 2) []
        = (chunkObjs.map Prod.snd).getD m [] from rfl]
    exact List.take_left _ _

theorem claim_C4_witness :
    List.take ((pdfObjSeq (strBytes ("2 0 obj P endobj\n"))
          [(3, strBytes ("3 0 obj A endobj\n")), (4, strBytes ("4 0 obj B endobj\n"))]).getD 3 []).length
        (List.drop ((pdfXrefTable (strBytes ("2 0 obj P endobj\n"))
            [(3, strBytes ("3 0 obj A endobj\n")), (4, strBytes ("4 0 obj B endobj\n"))] 4).getD 3 0)
          (writeNotePDF (strBytes ("2 0 obj P endobj\n"))
            [(3, strBytes ("3 0 obj A endobj\n")), (4, strBytes ("4 0 obj B endobj\n"))] 4))
      = (pdfObjSeq (strBytes ("2 0 obj P endobj\n"))
          [(3, strBytes ("3 0 obj A endobj\n")), (4, strBytes ("4 0 obj B endobj\n"))]).getD 3 [] ∧
    List.take 5 (List.drop (pdfBodyPrefix (strBytes ("2 0 obj P endobj\n"))
          [(3, strBytes ("3 0 obj A endobj\n")), (4, strBytes ("4 0 obj B endobj\n"))]).length
        (writeNotePDF (strBytes ("2 0 obj P endobj\n"))
          [(3, strBytes ("3 0 obj A endobj\n")), (4, strBytes ("4 0 obj B endobj\n"))] 4))
      = strBytes ("xref\n") :=
  ⟨(claim_C4_pdf_writer (strBytes ("2 0 obj P endobj\n"))
      [(3, strBytes ("3 0 obj A endobj\n")), (4, strBytes ("4 0 obj B endobj\n"))] 4
      (by decide) (by decide)).2.2.1 3 (by decide),
   (claim_C4_pdf_writer (strBytes ("2 0 obj P endobj\n"))
      [(3, strBytes ("3 0 obj A endobj\n")), (4, strBytes ("4 0 obj B endobj\n"))] 4
      (by decide) (by decide)).2.2.2.2⟩

end GoSNare
